import Mathlib

/-!
Shallow embedding of the AgenticDemo backend (FastAPI + SQLite).

The `people` table is modelled as a list of rows kept in rowid (insertion)
order, together with the next rowid to be assigned.  SQL `ORDER BY created_at
DESC` is modelled as a stable insertion sort on the `created_at` column.
Service-layer reads (`app/services.py`) and the HTTP endpoints of
`app/routers/people.py` and `app/routers/documents.py` are translated as pure
functions over this state; clock reads (`datetime.now()` / `datetime.utcnow()`)
become an explicit `now : Nat` argument, and the filesystem consulted by the
documents router becomes an explicit `FsState` of boolean observations.
-/

namespace AgenticDemo

/-- The `StaffingStatus` enum of `app/models.py`. -/
inductive StaffingStatus : Type
  | staffed
  | bench
  | available
deriving DecidableEq, Repr

/-- Projection `StaffingStatus.value`: the string stored in the `staffing_status` column. -/
def StaffingStatus.value : StaffingStatus → String
  | .staffed => "staffed"
  | .bench => "bench"
  | .available => "available"

/-- A row of the `people` table; also the `Person` response model, whose fields
are exactly the table columns. -/
structure Person : Type where
  id : Nat
  name : String
  role : String
  department : String
  staffing_status : StaffingStatus
  created_at : Nat
  updated_at : Nat
deriving DecidableEq, Repr

/-- The database: the `people` table in rowid order plus the next rowid
(SQLite `lastrowid` of the next insert). -/
structure DB : Type where
  rows : List Person
  nextId : Nat
deriving DecidableEq, Repr

/-- Query `SELECT * FROM people WHERE id = ?` followed by `fetchone`. -/
def findById (rows : List Person) (pid : Nat) : Option Person :=
  rows.find? (fun r => r.id == pid)

/-- Insert a row into a list already sorted by `created_at` descending,
keeping rows with equal `created_at` in their original relative order. -/
def insertDesc (r : Person) : List Person → List Person
  | [] => [r]
  | s :: l => if s.created_at ≤ r.created_at then r :: s :: l else s :: insertDesc r l

/-- Clause `ORDER BY created_at DESC`: stable sort of the table scan. -/
def sortByCreatedDesc : List Person → List Person
  | [] => []
  | r :: l => insertDesc r (sortByCreatedDesc l)

/-- The SQL predicate `staffing_status IN ('bench', 'available')` of
`BeachService`. -/
def onBeach (r : Person) : Bool :=
  r.staffing_status.value == "bench" || r.staffing_status.value == "available"

/-- Service `PeopleService.get_all_people`:
`SELECT * FROM people ORDER BY created_at DESC`. -/
def get_all_people (db : DB) : List Person :=
  sortByCreatedDesc db.rows

/-- Service `BeachService.get_people_on_beach`:
`SELECT * FROM people WHERE staffing_status IN ('bench', 'available')
ORDER BY created_at DESC`. -/
def get_people_on_beach (db : DB) : List Person :=
  sortByCreatedDesc (db.rows.filter onBeach)

/-- Service `BeachService.get_beach_count`:
`SELECT COUNT(*) FROM people WHERE staffing_status IN ('bench', 'available')`. -/
def get_beach_count (db : DB) : Nat :=
  (db.rows.filter onBeach).length

/-- Descending `created_at` order, as a pairwise relation. -/
def SortedDesc (l : List Person) : Prop :=
  l.Pairwise (fun a b => b.created_at ≤ a.created_at)

theorem insertDesc_length (r : Person) (l : List Person) :
    (insertDesc r l).length = l.length + 1 := by
  induction l with
  | nil => rfl
  | cons s l ih =>
    by_cases h : s.created_at ≤ r.created_at <;>
      simp [insertDesc, h, ih]

theorem sortByCreatedDesc_length (l : List Person) :
    (sortByCreatedDesc l).length = l.length := by
  induction l with
  | nil => rfl
  | cons r l ih => simp [sortByCreatedDesc, insertDesc_length, ih]

theorem mem_insertDesc {x r : Person} {l : List Person} :
    x ∈ insertDesc r l ↔ x = r ∨ x ∈ l := by
  induction l with
  | nil => simp [insertDesc]
  | cons s l ih =>
    by_cases h : s.created_at ≤ r.created_at
    · simp [insertDesc, h]
    · simp [insertDesc, h, ih]
      tauto

theorem insertDesc_eq_cons {r : Person} {l : List Person}
    (h : ∀ x ∈ l, x.created_at ≤ r.created_at) : insertDesc r l = r :: l := by
  cases l with
  | nil => rfl
  | cons s l => rw [insertDesc, if_pos (h s (List.mem_cons_self s l))]

theorem sortedDesc_insertDesc {r : Person} {l : List Person}
    (hl : SortedDesc l) : SortedDesc (insertDesc r l) := by
  induction l with
  | nil => simp [insertDesc, SortedDesc]
  | cons s l ih =>
    rcases List.pairwise_cons.mp hl with ⟨hs, hl'⟩
    rw [insertDesc]
    by_cases h : s.created_at ≤ r.created_at
    · rw [if_pos h]
      refine List.pairwise_cons.mpr ⟨?_, hl⟩
      intro x hx
      rcases List.mem_cons.mp hx with hx | hx
      · subst hx; exact h
      · exact le_trans (hs x hx) h
    · rw [if_neg h]
      refine List.pairwise_cons.mpr ⟨?_, ih hl'⟩
      intro x hx
      rcases mem_insertDesc.mp hx with hx | hx
      · subst hx; omega
      · exact hs x hx

theorem sortedDesc_sortByCreatedDesc (l : List Person) :
    SortedDesc (sortByCreatedDesc l) := by
  induction l with
  | nil => simp [sortByCreatedDesc, SortedDesc]
  | cons r l ih => exact sortedDesc_insertDesc ih

theorem filter_insertDesc (p : Person → Bool) (r : Person) (l : List Person)
    (hl : SortedDesc l) :
    (insertDesc r l).filter p =
      if p r then insertDesc r (l.filter p) else l.filter p := by
  induction l with
  | nil => by_cases h : p r <;> simp [insertDesc, h]
  | cons s l ih =>
    rcases List.pairwise_cons.mp hl with ⟨hs, hl'⟩
    rw [insertDesc]
    by_cases h : s.created_at ≤ r.created_at
    · rw [if_pos h]
      by_cases hpr : p r = true
      · rw [List.filter_cons_of_pos hpr, if_pos hpr]
        refine (insertDesc_eq_cons ?_).symm
        intro x hx
        rcases List.mem_cons.mp (List.mem_of_mem_filter hx) with hx | hx
        · subst hx; exact h
        · exact le_trans (hs x hx) h
      · rw [List.filter_cons_of_neg hpr, if_neg hpr]
    · rw [if_neg h]
      by_cases hps : p s = true
      · rw [List.filter_cons_of_pos hps, ih hl', List.filter_cons_of_pos hps]
        by_cases hpr : p r = true
        · rw [if_pos hpr, if_pos hpr, insertDesc, if_neg h]
        · rw [if_neg hpr, if_neg hpr]
      · rw [List.filter_cons_of_neg hps, ih hl', List.filter_cons_of_neg hps]

theorem filter_sortByCreatedDesc (p : Person → Bool) (l : List Person) :
    (sortByCreatedDesc l).filter p = sortByCreatedDesc (l.filter p) := by
  induction l with
  | nil => rfl
  | cons r l ih =>
    by_cases hpr : p r
    · rw [sortByCreatedDesc, filter_insertDesc p r _ (sortedDesc_sortByCreatedDesc l),
        if_pos hpr, ih, List.filter_cons_of_pos (by simp [hpr]), sortByCreatedDesc]
    · rw [sortByCreatedDesc, filter_insertDesc p r _ (sortedDesc_sortByCreatedDesc l),
        if_neg hpr, ih, List.filter_cons_of_neg (by simp [hpr])]

theorem mem_sortByCreatedDesc {x : Person} {l : List Person} :
    x ∈ sortByCreatedDesc l ↔ x ∈ l := by
  induction l with
  | nil => simp [sortByCreatedDesc]
  | cons r l ih => rw [sortByCreatedDesc, mem_insertDesc, ih, List.mem_cons]

/-- C1. - For every database state, `BeachService.get_people_on_beach` returns
exactly the sublist of `PeopleService.get_all_people` whose `staffing_status` is
`bench` or `available`, it is ordered by `created_at` descending, and a person
with status `staffed` never appears in it. -/
theorem beach_is_filtered_list (db : DB) :
    get_people_on_beach db = (get_all_people db).filter onBeach ∧
    SortedDesc (get_people_on_beach db) ∧
    ∀ p ∈ get_people_on_beach db, p.staffing_status ≠ .staffed := by
  have h1 : get_people_on_beach db = (get_all_people db).filter onBeach := by
    rw [get_people_on_beach, get_all_people, filter_sortByCreatedDesc]
  refine ⟨h1, sortedDesc_sortByCreatedDesc _, ?_⟩
  intro p hp hstaffed
  rw [get_people_on_beach] at hp
  have honb := List.of_mem_filter (mem_sortByCreatedDesc.mp hp)
  simp [onBeach, StaffingStatus.value, hstaffed] at honb

/-- C10. - For every database state, `BeachService.get_beach_count` equals the
length of the list returned by `BeachService.get_people_on_beach`. -/
theorem beach_count_eq_beach_list_length (db : DB) :
    get_beach_count db = (get_people_on_beach db).length := by
  rw [get_beach_count, get_people_on_beach, sortByCreatedDesc_length]

/-- Errors surfaced by the routers via `HTTPException`, plus the request-body
validation FastAPI performs before a handler runs. -/
inductive ApiErr : Type
  | validation
  | notFound
  | badRequest
  | serverError
deriving DecidableEq, Repr

/-- Raw body of a `POST /people` request, before Pydantic validation. -/
structure RawPersonCreate : Type where
  name : String
  role : String
  department : String
  staffing_status : String
deriving DecidableEq, Repr

/-- A `PersonCreate` body that passed Pydantic validation. -/
structure PersonCreate : Type where
  name : String
  role : String
  department : String
  staffing_status : StaffingStatus
deriving DecidableEq, Repr

/-- The ASCII whitespace characters Python's `str.strip()` removes. -/
def pyIsSpace (c : Char) : Bool :=
  c = ' ' || c = '\t' || c = '\n' || c = '\r' || c = '\x0c' || c = '\x0b'

/-- Python's `str.strip()`: drop leading and trailing whitespace. -/
def pyStrip (s : String) : String :=
  String.mk (((s.data.dropWhile pyIsSpace).reverse.dropWhile pyIsSpace).reverse)

/-- Field constraints plus the `validate_text_fields` validator of
`PersonBase` in `app/models.py`: `min_length=1`, `max_length=100`, not
empty or whitespace-only; the value kept is the stripped string. -/
def validText (s : String) : Option String :=
  if s.length < 1 then none
  else if s.length > 100 then none
  else if pyStrip s = "" then none
  else some (pyStrip s)

/-- Pydantic coercion of a request string into the `StaffingStatus` enum. -/
def parseStatus (s : String) : Option StaffingStatus :=
  if s = "staffed" then some .staffed
  else if s = "bench" then some .bench
  else if s = "available" then some .available
  else none

/-- Pydantic validation of a `PersonCreate` request body: every field must be
valid, otherwise the request is rejected. -/
def parsePersonCreate (raw : RawPersonCreate) : Option PersonCreate :=
  match validText raw.name, validText raw.role, validText raw.department,
      parseStatus raw.staffing_status with
  | some n, some r, some d, some st =>
      some { name := n, role := r, department := d, staffing_status := st }
  | _, _, _, _ => none

/-- The row inserted by `POST /people`: generated rowid, the validated fields,
and `created_at = updated_at = current_time`. -/
def createdRow (pd : PersonCreate) (now : Nat) (db : DB) : Person :=
  { id := db.nextId, name := pd.name, role := pd.role,
    department := pd.department, staffing_status := pd.staffing_status,
    created_at := now, updated_at := now }

/-- The database after the `INSERT INTO people ...` of `POST /people`. -/
def insertedDB (pd : PersonCreate) (now : Nat) (db : DB) : DB :=
  { rows := db.rows ++ [createdRow pd now db], nextId := db.nextId + 1 }

/-- Endpoint `POST /people` (`create_person` in `app/routers/people.py`), including the
body validation FastAPI performs first: on validation failure the handler never
runs and the database is untouched; otherwise one row is inserted with
`created_at = updated_at = current_time` and re-read by its rowid. -/
def create_person (raw : RawPersonCreate) (now : Nat) (db : DB) :
    Except ApiErr Person × DB :=
  match parsePersonCreate raw with
  | none => (.error .validation, db)
  | some pd =>
    match findById (insertedDB pd now db).rows (createdRow pd now db).id with
    | none => (.error .serverError, insertedDB pd now db)
    | some r => (.ok r, insertedDB pd now db)

/-- Endpoint `GET /people/{person_id}` (`get_person_by_id` in the router): 404 when the
row is absent. -/
def get_person_by_id (pid : Nat) (db : DB) : Except ApiErr Person :=
  match findById db.rows pid with
  | none => .error .notFound
  | some r => .ok r

/-- A `PersonUpdate` body that passed Pydantic validation: each supplied field
already holds a valid (stripped) value. -/
structure PersonUpdate : Type where
  name : Option String := none
  role : Option String := none
  department : Option String := none
  staffing_status : Option StaffingStatus := none
deriving DecidableEq, Repr

/-- The router's `update_fields` list is empty iff no field was supplied. -/
def PersonUpdate.isEmptyUpdate (pu : PersonUpdate) : Bool :=
  pu.name.isNone && pu.role.isNone && pu.department.isNone &&
    pu.staffing_status.isNone

/-- The dynamic `UPDATE people SET ...` the router builds: each supplied field
overwrites its column and `updated_at` is always set to the current time. -/
def applyUpdate (pu : PersonUpdate) (now : Nat) (r : Person) : Person :=
  { r with
    name := pu.name.getD r.name
    role := pu.role.getD r.role
    department := pu.department.getD r.department
    staffing_status := pu.staffing_status.getD r.staffing_status
    updated_at := now }

/-- The database after the dynamic `UPDATE people ... WHERE id = ?`. -/
def updatedDB (pid : Nat) (pu : PersonUpdate) (now : Nat) (db : DB) : DB :=
  { db with
    rows := db.rows.map
      (fun r => if r.id == pid then applyUpdate pu now r else r) }

/-- Endpoint `PUT /people/{person_id}` (`update_person` in the router): first a 404
check on the id, then a 400 check for an empty field list, then the dynamic
update followed by a re-read of the row. -/
def update_person (pid : Nat) (pu : PersonUpdate) (now : Nat) (db : DB) :
    Except ApiErr Person × DB :=
  match findById db.rows pid with
  | none => (.error .notFound, db)
  | some _ =>
    if pu.isEmptyUpdate then (.error .badRequest, db)
    else
      match findById (updatedDB pid pu now db).rows pid with
      | none => (.error .serverError, updatedDB pid pu now db)
      | some r => (.ok r, updatedDB pid pu now db)

/-- Endpoint `DELETE /people/{person_id}` (`delete_person` in the router): read the
pre-delete snapshot, 404 when absent, then `DELETE FROM people WHERE id = ?`. -/
def delete_person (pid : Nat) (db : DB) : Except ApiErr Person × DB :=
  match findById db.rows pid with
  | none => (.error .notFound, db)
  | some r =>
    (.ok r, { db with rows := db.rows.filter (fun s => !(s.id == pid)) })

/-- Well-formed database: every stored rowid is below the next rowid, as
SQLite maintains for the integer primary key. -/
def DB.WF (db : DB) : Prop :=
  ∀ r ∈ db.rows, r.id < db.nextId

theorem findById_append_new {rows : List Person} {row : Person} {pid : Nat}
    (h : ∀ r ∈ rows, (r.id == pid) = false) (hrow : (row.id == pid) = true) :
    findById (rows ++ [row]) pid = some row := by
  induction rows with
  | nil => simp [findById, List.find?, hrow]
  | cons s rows ih =>
    have hs := h s (List.mem_cons_self s rows)
    simp only [findById, List.cons_append] at ih ⊢
    rw [List.find?_cons_of_neg _ (by simp [hs])]
    exact ih (fun r hr => h r (List.mem_cons_of_mem s hr))

theorem findById_map_ite {rows : List Person} {pid : Nat}
    (f : Person → Person) (hf : ∀ s, (f s).id = s.id) :
    findById (rows.map (fun s => if s.id == pid then f s else s)) pid
      = (findById rows pid).map f := by
  induction rows with
  | nil => rfl
  | cons s rows ih =>
    simp only [findById, List.map_cons] at ih ⊢
    by_cases hs : (s.id == pid) = true
    · have hfs : ((f s).id == pid) = true := by rw [hf s]; exact hs
      rw [if_pos hs, List.find?_cons_of_pos _ (by simp [hfs]),
        List.find?_cons_of_pos _ (by simp [hs]), Option.map_some']
    · rw [if_neg hs, List.find?_cons_of_neg _ (by simp [hs]),
        List.find?_cons_of_neg _ (by simp [hs])]
      exact ih

theorem findById_map_ne {rows : List Person} {pid j : Nat}
    (f : Person → Person) (hf : ∀ s, (f s).id = s.id) (hne : j ≠ pid) :
    findById (rows.map (fun s => if s.id == pid then f s else s)) j
      = findById rows j := by
  induction rows with
  | nil => rfl
  | cons s rows ih =>
    simp only [findById, List.map_cons] at ih ⊢
    by_cases hs : (s.id == pid) = true
    · have hsj : (s.id == j) = false := by
        rw [beq_eq_false_iff_ne]
        rw [beq_iff_eq] at hs
        omega
      have hfsj : ((f s).id == j) = false := by rw [hf s]; exact hsj
      rw [if_pos hs, List.find?_cons_of_neg _ (by simp [hfsj]),
        List.find?_cons_of_neg _ (by simp [hsj])]
      exact ih
    · rw [if_neg hs]
      by_cases hsj : (s.id == j) = true
      · rw [List.find?_cons_of_pos _ (by simp [hsj]),
          List.find?_cons_of_pos _ (by simp [hsj])]
      · rw [List.find?_cons_of_neg _ (by simp [hsj]),
          List.find?_cons_of_neg _ (by simp [hsj])]
        exact ih

theorem findById_filter_self (rows : List Person) (pid : Nat) :
    findById (rows.filter (fun s => !(s.id == pid))) pid = none := by
  rw [findById, List.find?_eq_none]
  intro r hr
  have hkeep := List.of_mem_filter hr
  simp only [Bool.not_eq_true'] at hkeep
  simp [hkeep]

theorem findById_filter_ne (rows : List Person) (pid j : Nat) (hne : j ≠ pid) :
    findById (rows.filter (fun s => !(s.id == pid))) j = findById rows j := by
  induction rows with
  | nil => rfl
  | cons s rows ih =>
    simp only [findById] at ih ⊢
    by_cases hs : (s.id == pid) = true
    · have hsj : (s.id == j) = false := by
        rw [beq_eq_false_iff_ne]
        rw [beq_iff_eq] at hs
        omega
      rw [List.filter_cons_of_neg (by simp [hs]),
        List.find?_cons_of_neg _ (by simp [hsj])]
      exact ih
    · rw [List.filter_cons_of_pos (by simp [hs])]
      by_cases hsj : (s.id == j) = true
      · rw [List.find?_cons_of_pos _ (by simp [hsj]),
          List.find?_cons_of_pos _ (by simp [hsj])]
      · rw [List.find?_cons_of_neg _ (by simp [hsj]),
          List.find?_cons_of_neg _ (by simp [hsj])]
        exact ih

/-- C2. - For every existing person and every partial update supplying at
least one of the fields `{name, role, department, staffing_status}` (an update
supplying none is rejected, see the error-handling claims), the update changes
only the supplied fields: every unsupplied field keeps its prior value, `id`
and `created_at` are preserved, all other rows are untouched, and `updated_at`
is refreshed to the current time, which is ≥ the prior `updated_at` whenever
the clock has not gone backwards. -/
theorem update_changes_only_supplied_fields
    (pid now : Nat) (pu : PersonUpdate) (db : DB) (r : Person)
    (hfound : findById db.rows pid = some r)
    (hnonempty : pu.isEmptyUpdate = false)
    (hclock : r.updated_at ≤ now) :
    ∃ p db',
      update_person pid pu now db = (.ok p, db') ∧
      findById db'.rows pid = some p ∧
      p.id = r.id ∧
      p.created_at = r.created_at ∧
      p.name = pu.name.getD r.name ∧
      p.role = pu.role.getD r.role ∧
      p.department = pu.department.getD r.department ∧
      p.staffing_status = pu.staffing_status.getD r.staffing_status ∧
      p.updated_at = now ∧
      r.updated_at ≤ p.updated_at ∧
      (∀ j, j ≠ pid → findById db'.rows j = findById db.rows j) := by
  have hid : ∀ s, (applyUpdate pu now s).id = s.id := fun s => rfl
  have hfind' :
      findById (updatedDB pid pu now db).rows pid
        = some (applyUpdate pu now r) := by
    show findById (db.rows.map
      (fun s => if s.id == pid then applyUpdate pu now s else s)) pid = _
    rw [findById_map_ite (applyUpdate pu now) hid, hfound, Option.map_some']
  refine ⟨applyUpdate pu now r, updatedDB pid pu now db,
    ?_, hfind', rfl, rfl, rfl, rfl, rfl, rfl, rfl, hclock, ?_⟩
  · simp only [update_person, hfound, hnonempty, Bool.false_eq_true,
      if_false, hfind']
  · intro j hj
    show findById (db.rows.map
      (fun s => if s.id == pid then applyUpdate pu now s else s)) j = _
    exact findById_map_ne (applyUpdate pu now) hid hj

/-- Witness for C2: updating only the name of person 1 at time 20. -/
theorem update_changes_only_supplied_fields_witness :
    ∃ p db',
      update_person 1 { name := some "Alicia" } 20
        { rows := [{ id := 1, name := "Alice", role := "Dev",
                     department := "Eng", staffing_status := .staffed,
                     created_at := 10, updated_at := 10 }], nextId := 2 }
        = (.ok p, db') ∧
      findById db'.rows 1 = some p ∧
      p.id = 1 ∧
      p.created_at = 10 ∧
      p.name = (some "Alicia").getD "Alice" ∧
      p.role = (none : Option String).getD "Dev" ∧
      p.department = (none : Option String).getD "Eng" ∧
      p.staffing_status = (none : Option StaffingStatus).getD .staffed ∧
      p.updated_at = 20 ∧
      (10 : Nat) ≤ p.updated_at ∧
      (∀ j, j ≠ 1 → findById db'.rows j =
        findById [{ id := 1, name := "Alice", role := "Dev",
                     department := "Eng", staffing_status := .staffed,
                     created_at := 10, updated_at := 10 }] j) := by
  have h := update_changes_only_supplied_fields 1 20 { name := some "Alicia" }
    { rows := [{ id := 1, name := "Alice", role := "Dev",
                 department := "Eng", staffing_status := .staffed,
                 created_at := 10, updated_at := 10 }], nextId := 2 }
    { id := 1, name := "Alice", role := "Dev", department := "Eng",
      staffing_status := .staffed, created_at := 10, updated_at := 10 }
    (by decide) (by decide) (by decide)
  rcases h with ⟨p, db', h⟩
  exact ⟨p, db', h⟩

/-- C3. - For every id and every partial-update request, the update endpoint
fails with `NotFound` (404) when no person with that id exists, and fails with
`ValidationError`-style `400 Bad Request` when the person exists but zero
fields are supplied; in both failure cases the stored state is unchanged. -/
theorem update_failure_modes
    (pid now : Nat) (pu : PersonUpdate) (db : DB) :
    (findById db.rows pid = none →
      update_person pid pu now db = (.error .notFound, db)) ∧
    (∀ r, findById db.rows pid = some r → pu.isEmptyUpdate = true →
      update_person pid pu now db = (.error .badRequest, db)) := by
  constructor
  · intro habsent
    simp only [update_person, habsent]
  · intro r hfound hempty
    simp only [update_person, hfound, hempty, if_true]

/-- Witness for C3: both failure modes at concrete inputs. -/
theorem update_failure_modes_witness :
    update_person 7 { name := some "X" } 20
        ({ rows := [], nextId := 1 } : DB) =
      (.error .notFound, ({ rows := [], nextId := 1 } : DB)) ∧
    update_person 1 {} 20
        ({ rows := [{ id := 1, name := "Alice", role := "Dev",
                      department := "Eng", staffing_status := .staffed,
                      created_at := 10, updated_at := 10 }], nextId := 2 } : DB) =
      (.error .badRequest,
        ({ rows := [{ id := 1, name := "Alice", role := "Dev",
                      department := "Eng", staffing_status := .staffed,
                      created_at := 10, updated_at := 10 }], nextId := 2 } : DB)) :=
  ⟨(update_failure_modes 7 20 { name := some "X" } _).1 (by decide),
   (update_failure_modes 1 20 {} _).2
      { id := 1, name := "Alice", role := "Dev", department := "Eng",
        staffing_status := .staffed, created_at := 10, updated_at := 10 }
      (by decide) (by decide)⟩

/-- C9. - In the update endpoint the existence check precedes the zero-field
check: for an id with no row, a request supplying zero fields fails with
`NotFound` (404), not with `400 Bad Request`. -/
theorem update_absent_beats_empty
    (pid now : Nat) (pu : PersonUpdate) (db : DB)
    (habsent : findById db.rows pid = none)
    (_hempty : pu.isEmptyUpdate = true) :
    update_person pid pu now db = (.error .notFound, db) ∧
    (update_person pid pu now db).1 ≠ .error .badRequest := by
  have h : update_person pid pu now db = (.error .notFound, db) := by
    simp only [update_person, habsent]
  exact ⟨h, by rw [h]; simp⟩

/-- Witness for C9: empty update of a nonexistent id returns 404. -/
theorem update_absent_beats_empty_witness :
    update_person 7 {} 20 ({ rows := [], nextId := 1 } : DB) =
      (.error .notFound, ({ rows := [], nextId := 1 } : DB)) ∧
    (update_person 7 {} 20 ({ rows := [], nextId := 1 } : DB)).1 ≠
      .error .badRequest :=
  update_absent_beats_empty 7 20 {} _ (by decide) (by decide)

/-- C4. - For every id, the delete endpoint removes the row and returns the
pre-delete snapshot; after a successful delete, `GET /people/{id}` returns
`NotFound`, every other row is untouched, and deleting a nonexistent id
returns `NotFound` leaving the stored state unchanged. -/
theorem delete_removes_and_returns_snapshot (pid : Nat) (db : DB) :
    (findById db.rows pid = none →
      delete_person pid db = (.error .notFound, db)) ∧
    (∀ r, findById db.rows pid = some r →
      ∃ db', delete_person pid db = (.ok r, db') ∧
        get_person_by_id pid db' = .error .notFound ∧
        ∀ j, j ≠ pid → findById db'.rows j = findById db.rows j) := by
  constructor
  · intro habsent
    simp only [delete_person, habsent]
  · intro r hfound
    refine ⟨{ db with rows := db.rows.filter (fun s => !(s.id == pid)) },
      ?_, ?_, ?_⟩
    · simp only [delete_person, hfound]
    · simp only [get_person_by_id, findById_filter_self]
    · intro j hj
      exact findById_filter_ne db.rows pid j hj

/-- Witness for C4: both branches at concrete inputs. -/
theorem delete_removes_and_returns_snapshot_witness :
    delete_person 7 ({ rows := [], nextId := 1 } : DB) =
      (.error .notFound, ({ rows := [], nextId := 1 } : DB)) ∧
    ∃ db',
      delete_person 1
          ({ rows := [{ id := 1, name := "Alice", role := "Dev",
                        department := "Eng", staffing_status := .staffed,
                        created_at := 10, updated_at := 10 }],
             nextId := 2 } : DB) =
        (.ok { id := 1, name := "Alice", role := "Dev", department := "Eng",
               staffing_status := .staffed, created_at := 10,
               updated_at := 10 }, db') ∧
      get_person_by_id 1 db' = .error .notFound ∧
      ∀ j, j ≠ 1 → findById db'.rows j =
        findById [{ id := 1, name := "Alice", role := "Dev",
                    department := "Eng", staffing_status := .staffed,
                    created_at := 10, updated_at := 10 }] j :=
  ⟨(delete_removes_and_returns_snapshot 7 _).1 (by decide),
   (delete_removes_and_returns_snapshot 1 _).2
      { id := 1, name := "Alice", role := "Dev", department := "Eng",
        staffing_status := .staffed, created_at := 10, updated_at := 10 }
      (by decide)⟩

theorem eq_empty_of_length_eq_zero {s : String} (h : s.length = 0) : s = "" := by
  cases s with
  | mk data =>
    cases data with
    | nil => rfl
    | cons c cs => simp [String.length] at h

theorem validText_of_stripped {s : String} (hstrip : pyStrip s = s)
    (hne : s ≠ "") (hlen : s.length ≤ 100) : validText s = some s := by
  have hpos : ¬s.length < 1 := by
    intro hlt
    exact hne (eq_empty_of_length_eq_zero (by omega))
  rw [validText, if_neg hpos, if_neg (by omega), hstrip, if_neg hne]

theorem parseStatus_value {s : String} {st : StaffingStatus}
    (h : parseStatus s = some st) : st.value = s := by
  rw [parseStatus] at h
  split_ifs at h with h1 h2 h3
  · injection h with h'
    subst h'
    rw [h1]
    rfl
  · injection h with h'
    subst h'
    rw [h2]
    rfl
  · injection h with h'
    subst h'
    rw [h3]
    rfl

/-- C5. - For every valid input (non-empty stripped `name`/`role`/
`department` of at most 100 characters, and a status among the three
enumerated values), create followed by getById on the returned id yields a
person with the same name, role, department and staffing status, and at
creation `created_at` equals `updated_at`. -/
theorem create_then_get_roundtrip
    (raw : RawPersonCreate) (now : Nat) (db : DB) (st : StaffingStatus)
    (hwf : db.WF)
    (hname : pyStrip raw.name = raw.name) (hname0 : raw.name ≠ "")
    (hname100 : raw.name.length ≤ 100)
    (hrole : pyStrip raw.role = raw.role) (hrole0 : raw.role ≠ "")
    (hrole100 : raw.role.length ≤ 100)
    (hdept : pyStrip raw.department = raw.department)
    (hdept0 : raw.department ≠ "") (hdept100 : raw.department.length ≤ 100)
    (hstatus : parseStatus raw.staffing_status = some st) :
    ∃ p db',
      create_person raw now db = (.ok p, db') ∧
      get_person_by_id p.id db' = .ok p ∧
      p.name = raw.name ∧
      p.role = raw.role ∧
      p.department = raw.department ∧
      p.staffing_status.value = raw.staffing_status ∧
      p.created_at = p.updated_at := by
  have hparse : parsePersonCreate raw = some
      { name := raw.name, role := raw.role, department := raw.department,
        staffing_status := st } := by
    rw [parsePersonCreate, validText_of_stripped hname hname0 hname100,
      validText_of_stripped hrole hrole0 hrole100,
      validText_of_stripped hdept hdept0 hdept100, hstatus]
  have hfind : ∀ pd : PersonCreate,
      findById (insertedDB pd now db).rows (createdRow pd now db).id
        = some (createdRow pd now db) := by
    intro pd
    show findById (db.rows ++ [createdRow pd now db]) (createdRow pd now db).id
      = some (createdRow pd now db)
    apply findById_append_new
    · intro r hr
      have hlt := hwf r hr
      have hcid : (createdRow pd now db).id = db.nextId := rfl
      rw [beq_eq_false_iff_ne, hcid]
      omega
    · exact beq_self_eq_true _
  refine ⟨createdRow
      { name := raw.name, role := raw.role, department := raw.department,
        staffing_status := st } now db,
    insertedDB
      { name := raw.name, role := raw.role, department := raw.department,
        staffing_status := st } now db, ?_, ?_, rfl, rfl, rfl,
    parseStatus_value hstatus, rfl⟩
  · simp only [create_person, hparse, hfind]
  · simp only [get_person_by_id, hfind]

/-- Witness for C5: creating "Alice" in an empty database at time 5. -/
theorem create_then_get_roundtrip_witness :
    ∃ p db',
      create_person
          { name := "Alice", role := "Dev", department := "Eng",
            staffing_status := "bench" } 5 ({ rows := [], nextId := 1 } : DB)
        = (.ok p, db') ∧
      get_person_by_id p.id db' = .ok p ∧
      p.name = "Alice" ∧
      p.role = "Dev" ∧
      p.department = "Eng" ∧
      p.staffing_status.value = "bench" ∧
      p.created_at = p.updated_at :=
  create_then_get_roundtrip
    { name := "Alice", role := "Dev", department := "Eng",
      staffing_status := "bench" } 5 { rows := [], nextId := 1 } .bench
    (fun r hr => absurd hr (List.not_mem_nil r))
    (by decide) (by decide) (by decide)
    (by decide) (by decide) (by decide)
    (by decide) (by decide) (by decide)
    (by decide)

/-- Python truthiness and validator failure of a text field: empty,
whitespace-only, or longer than 100 characters. -/
def badText (s : String) : Prop :=
  s.length = 0 ∨ 100 < s.length ∨ pyStrip s = ""

theorem validText_eq_none_of_bad {s : String} (h : badText s) :
    validText s = none := by
  rcases h with h | h | h
  · rw [validText, if_pos (by omega)]
  · rw [validText]
    by_cases h1 : s.length < 1
    · rw [if_pos h1]
    · rw [if_neg h1, if_pos (by omega)]
  · rw [validText]
    by_cases h1 : s.length < 1
    · rw [if_pos h1]
    · rw [if_neg h1]
      by_cases h2 : s.length > 100
      · rw [if_pos h2]
      · rw [if_neg h2, if_pos h]

/-- C6. - For every create input in which `name`, `role` or `department` is
empty or whitespace-only or exceeds 100 characters, or whose
`staffing_status` is not one of `staffed`/`bench`/`available`, the create
endpoint fails with a validation error and the stored state is unchanged. -/
theorem create_invalid_fails
    (raw : RawPersonCreate) (now : Nat) (db : DB)
    (hbad : badText raw.name ∨ badText raw.role ∨ badText raw.department ∨
      parseStatus raw.staffing_status = none) :
    create_person raw now db = (.error .validation, db) := by
  have hparse : parsePersonCreate raw = none := by
    rw [parsePersonCreate]
    rcases hbad with h | h | h | h
    · rw [validText_eq_none_of_bad h]
    · rw [validText_eq_none_of_bad h]
      cases validText raw.name <;> rfl
    · rw [validText_eq_none_of_bad h]
      cases validText raw.name <;> cases validText raw.role <;> rfl
    · rw [h]
      cases validText raw.name <;> cases validText raw.role <;>
        cases validText raw.department <;> rfl
  simp only [create_person, hparse]

/-- Witness for C6: a whitespace-only name is rejected and persists nothing. -/
theorem create_invalid_fails_witness :
    create_person
        { name := "   ", role := "Dev", department := "Eng",
          staffing_status := "bench" } 5 ({ rows := [], nextId := 1 } : DB)
      = (.error .validation, ({ rows := [], nextId := 1 } : DB)) :=
  create_invalid_fails
    { name := "   ", role := "Dev", department := "Eng",
      staffing_status := "bench" } 5 { rows := [], nextId := 1 }
    (Or.inl (Or.inr (Or.inr (by decide))))

/-- Does `pat` start `s`? Helper for Python's substring operator. -/
def startsWithChars : List Char → List Char → Bool
  | [], _ => true
  | _ :: _, [] => false
  | c :: p, d :: s => c == d && startsWithChars p s

/-- Does `pat` occur contiguously in `s`? Helper for Python's substring
operator. -/
def hasSubChars (pat : List Char) : List Char → Bool
  | [] => startsWithChars pat []
  | c :: s => startsWithChars pat (c :: s) || hasSubChars pat s

/-- Python's `pat in s` on strings: contiguous substring test. -/
def containsSub (pat s : String) : Bool :=
  hasSubChars pat.data s.data

/-- The router's path-traversal test:
`".." in filename or "/" in filename or "\\" in filename`. -/
def hasTraversal (filename : String) : Bool :=
  containsSub ".." filename || filename.data.contains '/' ||
    filename.data.contains '\\'

/-- Index of the last `'.'` in a character list, if any. -/
def lastDotPos : List Char → Option Nat
  | [] => none
  | c :: s =>
    match lastDotPos s with
    | some i => some (i + 1)
    | none => if c = '.' then some 0 else none

/-- Python `pathlib.PurePath(filename).suffix`: the part from the last dot on, but
empty when the dot is the first or the last character. -/
def pySuffix (filename : String) : String :=
  match lastDotPos filename.data with
  | none => ""
  | some i =>
    if 0 < i ∧ i < filename.data.length - 1 then ⟨filename.data.drop i⟩
    else ""

/-- Python's `str.lower()` (ASCII case folding). -/
def lowerStr (s : String) : String :=
  ⟨s.data.map Char.toLower⟩

/-- Constant `ALLOWED_EXTENSIONS` in `app/routers/documents.py`. -/
def allowed_extensions : List String :=
  [".md", ".txt", ".pdf", ".doc", ".docx"]

/-- Constant `AVAILABLE_DOCUMENTS` in `app/routers/documents.py`. -/
def available_documents : List (String × String) :=
  [("employee-handbook.md",
    "Employee Handbook - Company policies and procedures"),
   ("code-of-conduct.md",
    "Code of Conduct - Ethical standards and behavioral expectations"),
   ("security-policy.md",
    "Security Policy - Information security guidelines and requirements")]

/-- Dictionary lookup `AVAILABLE_DOCUMENTS[filename]` / membership test. -/
def lookupDocument (filename : String) : Option String :=
  available_documents.lookup filename

/-- Lookup `media_type_map.get(file_extension, "application/octet-stream")`. -/
def media_type_map (ext : String) : String :=
  if ext = ".md" then "text/markdown"
  else if ext = ".txt" then "text/plain"
  else if ext = ".pdf" then "application/pdf"
  else if ext = ".doc" then "application/msword"
  else if ext = ".docx" then
    "application/vnd.openxmlformats-officedocument.wordprocessingml.document"
  else "application/octet-stream"

/-- The filesystem observations the documents router makes about
`POLICIES_DIR / filename`: `exists()`, `is_file()`, whether
`resolve()` leaves the resolved policies root
(`relative_to` raising `ValueError`), and the `stat()` data used by the
info endpoint. -/
structure FsState : Type where
  fileExists : String → Bool
  isFile : String → Bool
  resolvesOutside : String → Bool
  size : String → Nat
  mtime : String → Nat

/-- Outcome of `GET /docs/{filename}`. -/
inductive DocResult : Type
  | invalid400
  | forbidden403
  | notFound404
  | ok (filename mediaType : String)
deriving DecidableEq, Repr

/-- The metadata dictionary returned by `GET /docs/{filename}/info`. -/
structure DocInfo : Type where
  filename : String
  description : String
  size_bytes : Nat
  modified_at : Nat
  extension : String
  download_url : String
deriving DecidableEq, Repr

/-- Outcome of `GET /docs/{filename}/info`. -/
inductive InfoResult : Type
  | invalid400
  | notFound404
  | ok (info : DocInfo)
deriving DecidableEq, Repr

/-- Endpoint `GET /docs/{filename}` (`get_document` in `app/routers/documents.py`):
path-traversal check, extension allow-list check, allow-list-map membership,
existence, regular-file check, resolved-path containment check, then the
file response with its media type. -/
def get_document (filename : String) (fs : FsState) : DocResult :=
  if hasTraversal filename then .invalid400
  else if !(allowed_extensions.contains (lowerStr (pySuffix filename))) then
    .forbidden403
  else if (lookupDocument filename).isNone then .notFound404
  else if !(fs.fileExists filename) then .notFound404
  else if !(fs.isFile filename) then .forbidden403
  else if fs.resolvesOutside filename then .forbidden403
  else .ok filename (media_type_map (lowerStr (pySuffix filename)))

/-- Endpoint `GET /docs/{filename}/info` (`get_document_info` in
`app/routers/documents.py`): path-traversal check, allow-list-map membership,
existence, then the metadata dictionary. -/
def get_document_info (filename : String) (fs : FsState) : InfoResult :=
  if hasTraversal filename then .invalid400
  else if (lookupDocument filename).isNone then .notFound404
  else if !(fs.fileExists filename) then .notFound404
  else .ok
    { filename := filename
      description := (lookupDocument filename).getD ""
      size_bytes := fs.size filename
      modified_at := fs.mtime filename
      extension := pySuffix filename
      download_url := "/api/docs/" ++ filename }

/-- C7. - For every filename, `GET /docs/{filename}` validates in order:
a filename containing `..`, `/` or `\` fails with 400 before any filesystem
access (the result is the same in every filesystem state); otherwise a
non-allow-listed extension fails with 403; otherwise a filename outside the
allow-list map fails with 404; otherwise (for the file the dispatcher then
finds on disk) a resolved path escaping the policies root fails with 403. -/
theorem get_document_validation_order (filename : String) (fs : FsState) :
    (hasTraversal filename = true →
      get_document filename fs = .invalid400 ∧
      ∀ fs', get_document filename fs = get_document filename fs') ∧
    (hasTraversal filename = false →
      allowed_extensions.contains (lowerStr (pySuffix filename)) = false →
      get_document filename fs = .forbidden403) ∧
    (hasTraversal filename = false →
      allowed_extensions.contains (lowerStr (pySuffix filename)) = true →
      lookupDocument filename = none →
      get_document filename fs = .notFound404) ∧
    (hasTraversal filename = false →
      allowed_extensions.contains (lowerStr (pySuffix filename)) = true →
      (lookupDocument filename).isSome = true →
      fs.fileExists filename = true →
      fs.isFile filename = true →
      fs.resolvesOutside filename = true →
      get_document filename fs = .forbidden403) := by
  refine ⟨?_, ?_, ?_, ?_⟩
  · intro htrav
    constructor
    · simp [get_document, htrav]
    · intro fs'
      simp [get_document, htrav]
  · intro htrav hext
    have hm : lowerStr (pySuffix filename) ∉ allowed_extensions := by
      simpa using hext
    simp [get_document, htrav, hm]
  · intro htrav hext hdoc
    have hm : lowerStr (pySuffix filename) ∈ allowed_extensions := by
      simpa using hext
    simp [get_document, htrav, hm, hdoc]
  · intro htrav hext hdoc hex hfile hout
    have hm : lowerStr (pySuffix filename) ∈ allowed_extensions := by
      simpa using hext
    rw [Option.isSome_iff_exists] at hdoc
    rcases hdoc with ⟨d, hd⟩
    simp [get_document, htrav, hm, hd, hex, hfile, hout]

/-- A filesystem state in which every name exists, is a regular file, and
resolves outside the policies root (e.g. via a symlink). -/
def fsAll : FsState :=
  { fileExists := fun _ => true, isFile := fun _ => true,
    resolvesOutside := fun _ => true, size := fun _ => 0,
    mtime := fun _ => 0 }

/-- Witness for C7: each validation outcome at a concrete filename. -/
theorem get_document_validation_order_witness :
    (get_document "../etc/passwd" fsAll = .invalid400 ∧
      ∀ fs', get_document "../etc/passwd" fsAll =
        get_document "../etc/passwd" fs') ∧
    get_document "evil.exe" fsAll = .forbidden403 ∧
    get_document "notes.md" fsAll = .notFound404 ∧
    get_document "employee-handbook.md" fsAll = .forbidden403 :=
  ⟨(get_document_validation_order "../etc/passwd" fsAll).1 (by decide),
   (get_document_validation_order "evil.exe" fsAll).2.1 (by decide) (by decide),
   (get_document_validation_order "notes.md" fsAll).2.2.1 (by decide)
     (by decide) (by decide),
   (get_document_validation_order "employee-handbook.md" fsAll).2.2.2
     (by decide) (by decide) (by decide) rfl rfl rfl⟩

/-- Counterexample to C8 as stated: the info endpoint does not apply the
extension allow-list check of the download endpoint, so on `evil.exe` the two
endpoints disagree: `get` fails with 403 Forbidden, `info` with 404 NotFound. -/
theorem info_validation_differs_from_get :
    get_document "evil.exe" fsAll = .forbidden403 ∧
    get_document_info "evil.exe" fsAll = .notFound404 := by
  constructor <;> decide

/-- C8 (amended). - `info(filename)` applies the same path-traversal check
and the same allow-list-membership check as `get(filename)`, with the same
outcomes; but it performs no extension allow-list check and no
root-directory-escape check: an allow-listed filename that exists is served
regardless of where its path resolves, and for a filename with a
non-allow-listed extension (hence outside the allow-list map) `info` returns
NotFound where `get` returns Forbidden. -/
theorem info_shares_traversal_and_membership_checks
    (filename : String) (fs : FsState) :
    (hasTraversal filename = true →
      get_document_info filename fs = .invalid400 ∧
      get_document filename fs = .invalid400) ∧
    (hasTraversal filename = false → lookupDocument filename = none →
      get_document_info filename fs = .notFound404) ∧
    (hasTraversal filename = false → lookupDocument filename = none →
      allowed_extensions.contains (lowerStr (pySuffix filename)) = false →
      get_document filename fs = .forbidden403) ∧
    (hasTraversal filename = false →
      (lookupDocument filename).isSome = true →
      fs.fileExists filename = true →
      ∃ d, get_document_info filename fs = .ok d) := by
  refine ⟨?_, ?_, ?_, ?_⟩
  · intro htrav
    constructor <;> simp [get_document, get_document_info, htrav]
  · intro htrav hdoc
    simp [get_document_info, htrav, hdoc]
  · intro htrav _hdoc hext
    have hm : lowerStr (pySuffix filename) ∉ allowed_extensions := by
      simpa using hext
    simp [get_document, htrav, hm]
  · intro htrav hdoc hex
    rw [Option.isSome_iff_exists] at hdoc
    rcases hdoc with ⟨d, hd⟩
    refine ⟨{ filename := filename, description := d,
              size_bytes := fs.size filename,
              modified_at := fs.mtime filename,
              extension := pySuffix filename,
              download_url := "/api/docs/" ++ filename }, ?_⟩
    simp [get_document_info, htrav, hd, hex]

/-- Witness for the amended C8: each clause at a concrete input. -/
theorem info_shares_traversal_and_membership_checks_witness :
    (get_document_info "a/../b.md" fsAll = .invalid400 ∧
      get_document "a/../b.md" fsAll = .invalid400) ∧
    get_document_info "notes.md" fsAll = .notFound404 ∧
    get_document "evil.exe" fsAll = .forbidden403 ∧
    (∃ d, get_document_info "security-policy.md" fsAll = .ok d) :=
  ⟨(info_shares_traversal_and_membership_checks "a/../b.md" fsAll).1 (by decide),
   (info_shares_traversal_and_membership_checks "notes.md" fsAll).2.1
     (by decide) (by decide),
   (info_shares_traversal_and_membership_checks "evil.exe" fsAll).2.2.1
     (by decide) (by decide) (by decide),
   (info_shares_traversal_and_membership_checks "security-policy.md" fsAll).2.2.2
     (by decide) (by decide) rfl⟩

end AgenticDemo
